import Mathlib

/-!
# Verification of the AYTO candidate-scenario engine

A shallow embedding of the `ayto` package (`src/ayto/ayto.py` and
`src/ayto/utils.py`): the permutation generator, the `AYTO` class with its
constraint-application operations, probability calculation, hypothetical
queries and save/load replay.  Scenario tables are lists of rows, numpy
boolean-mask indexing is modelled by `maskSelect`, Python exceptions by
`Except` values that carry the object state at the moment of the raise
(Python mutates `self` in place, so an escaping exception leaves the object
exactly as the statements executed so far left it).
-/

namespace Ayto

/-- One step of `faster_permutations`'s outer loop (loop variable `i`):
from the table of all permutations of `0..i-1` (each row of length `i`),
build the table of all permutations of `0..i` as `i+1` contiguous blocks,
block `j` (for `j = 0, 1, ..., i`) placing value `i` at column
`splitter = i - j` of every old row, keeping columns `[0, splitter)` and
shifting columns `[splitter, i)` right by one — i.e. inserting `i` at
position `i - j`.  Block `j = 0` is the in-place `perms[:rows_to_copy, i] = i`
assignment (insertion at the end). -/
def permStep (rows : List (List Nat)) (i : Nat) : List (List Nat) :=
  (List.range (i + 1)).flatMap fun j => rows.map fun r => r.insertIdx (i - j) i

/-- The state of the `perms` table after the outer-loop iteration with
loop variable `i`: all permutations of `0..i`, starting from the seed row
`perms[0, 0] = 0`. -/
def fasterPermutationsAux : Nat → List (List Nat)
  | 0 => [[0]]
  | i + 1 => permStep (fasterPermutationsAux i) (i + 1)

/-- `faster_permutations` from `src/ayto/utils.py`: the table of all
permutations of `0..n-1`, built by the incremental insertion construction
(the loop runs `i = 1, ..., n-1`).  Meaningful for `n ≥ 1`, as in the
source (the seed assignment `perms[0, 0] = 0` requires at least one
column). -/
def faster_permutations (n : Nat) : List (List Nat) :=
  fasterPermutationsAux (n - 1)

/-- A history record / observation, as stored in `AYTO.history`
(`{"type": "truth_booth", ...}` or `{"type": "matchup_ceremony", ...}`). -/
inductive Event where
  | truthBooth (guy girl : String) (isMatch : Bool)
  | matchupCeremony (matchup : List (String × String)) (beams : Int)
deriving DecidableEq, Repr

/-- The `ValueError`s the class raises, tagged by the spec's taxonomy:
`unknownName` carries the offending name and the enumerated valid names of
its side, `invalidQuery` is `try_partial_scenario`'s "Either matches,
non_matches, or both must be provided", `impossibleScenario` is
"Impossible scenario provided. Did you enter contradictory data?". -/
inductive AytoError where
  | unknownName (name : String) (valid : List String)
  | invalidQuery
  | impossibleScenario
deriving DecidableEq, Repr

/-- Python dict lookup for `{name: id_ for id_, name in enumerate(names)}`:
the id of the last occurrence of `x` (later dict insertions overwrite
earlier ones), `none` when absent (`KeyError`). -/
def nameId (names : List String) (x : String) : Option Nat :=
  names.enum.foldl (fun acc p => if p.2 = x then some p.1 else acc) none

/-- `list(lookup.keys())` for the same dict: the names in first-insertion
order, duplicates collapsed. -/
def dictKeys (names : List String) : List String :=
  names.foldl (fun acc nm => if nm ∈ acc then acc else acc ++ [nm]) []

/-- The mutable state of an `AYTO` instance: `guys`, `girls`, `n`,
`_scenarios`, `probabilities` (the dense guy-major table behind the
`pandas` frame, entries as exact rationals), `history`. -/
structure AYTO where
  guys : List String
  girls : List String
  n : Nat
  scenarios : List (List Nat)
  probabilities : List (List ℚ)
  history : List Event
deriving DecidableEq, Repr

/-- `AYTO.num_scenarios`. -/
def num_scenarios (st : AYTO) : Nat :=
  st.scenarios.length

/-- `_initialize_probs`: every guy/girl entry is `1 / n`. -/
def initialize_probs (guys girls : List String) (n : Nat) : List (List ℚ) :=
  guys.map fun _ => girls.map fun _ => 1 / (n : ℚ)

/-- `AYTO.__init__`: scenario table from `faster_permutations`, uniform
probability table, empty history. -/
def init (guys girls : List String) : AYTO :=
  { guys := guys
    girls := girls
    n := guys.length
    scenarios := faster_permutations guys.length
    probabilities := initialize_probs guys girls guys.length
    history := [] }

/-- numpy boolean-mask row selection `table[idx]`. -/
def maskSelect {α : Type} (l : List α) (mask : List Bool) : List α :=
  (l.zip mask).filterMap fun p => if p.2 then some p.1 else none

/-- Elementwise `&` of two boolean masks. -/
def maskAnd (a b : List Bool) : List Bool :=
  (a.zip b).map fun p => p.1 && p.2

/-- Elementwise `~` of a boolean mask. -/
def maskNot (a : List Bool) : List Bool :=
  a.map fun x => !x

/-- One row of `(self._scenarios == matchup_list).sum(axis=1)`: at how many
positions does scenario row `r` (unsigned entries) equal the `-1`-padded
assignment list `m`. -/
def countAgree (r : List Nat) (m : List Int) : Nat :=
  (r.zip m).countP fun p => decide ((p.1 : Int) = p.2)

/-- The number of positions where row `r` agrees with the partial
assignment `m` **over assigned positions only** (`-1` marks an unassigned
position, which never contributes) — the spec's wording of the count in
`retainWhere`. -/
def countAgreeAssigned (r : List Nat) (m : List Int) : Nat :=
  (r.zip m).countP fun p => decide (p.2 ≠ -1 ∧ (p.1 : Int) = p.2)

/-- `_calculate_probabilities(scenarios)`: raises on an empty collection,
otherwise for each guy id the count of scenarios placing each girl id at
his position, divided by the number of scenarios (`count_dict.get(girl_idx,
0) / num_scenarios`). -/
def calcProbsOf (guys girls : List String) (scenarios : List (List Nat)) :
    Except AytoError (List (List ℚ)) :=
  if scenarios.length = 0 then
    .error .impossibleScenario
  else
    .ok <| (List.range guys.length).map fun guy_idx =>
      (List.range girls.length).map fun girl_idx =>
        ((scenarios.countP fun r => decide (r.getD guy_idx 0 = girl_idx) : Nat) : ℚ) /
          (scenarios.length : ℚ)

/-- `AYTO.calculate_probabilities`: recompute the cached table from the
persistent scenarios; the `ValueError` escapes with the state untouched. -/
def calculate_probabilities (st : AYTO) : Except (AytoError × AYTO) AYTO :=
  match calcProbsOf st.guys st.girls st.scenarios with
  | .error e => .error (e, st)
  | .ok t => .ok { st with probabilities := t }

/-- The name-validation loop at the head of `_parse_matchup`: the first
unknown name in scan order (guy checked before girl within each pair),
with the valid names of its side. -/
def checkNames (guys girls : List String) : List (String × String) → Option AytoError
  | [] => none
  | (guy, girl) :: rest =>
    if (nameId guys guy).isNone then some (.unknownName guy (dictKeys guys))
    else if (nameId girls girl).isNone then some (.unknownName girl (dictKeys girls))
    else checkNames guys girls rest

/-- The accumulation loop of `_parse_matchup`: start from `[-1] * n` and
set `matchup_ints[guy_id] = girl_id` for each pair in order (a later pair
with the same guy overwrites an earlier one).  Only reached with all names
validated, so the lookups cannot fail (the `getD 0` default is dead). -/
def matchupInts (guys girls : List String) (n : Nat)
    (matchup : List (String × String)) : List Int :=
  matchup.foldl
    (fun ints p =>
      ints.set ((nameId guys p.1).getD 0) (((nameId girls p.2).getD 0 : Nat) : Int))
    (List.replicate n (-1 : Int))

/-- `AYTO._parse_matchup`. -/
def parse_matchup (guys girls : List String) (n : Nat)
    (matchup : List (String × String)) : Except AytoError (List Int) :=
  match checkNames guys girls matchup with
  | some e => .error e
  | none => .ok (matchupInts guys girls n matchup)

/-- The boolean mask `sums == beams` of `_get_matchup_idx`, over an
explicit assignment list. -/
def matchupMask (scenarios : List (List Nat)) (ints : List Int) (beams : Int) :
    List Bool :=
  scenarios.map fun r => decide ((countAgree r ints : Int) = beams)

/-- `AYTO._get_matchup_idx`. -/
def get_matchup_idx (st : AYTO) (matchup : List (String × String)) (beams : Int) :
    Except AytoError (List Bool) :=
  match parse_matchup st.guys st.girls st.n matchup with
  | .error e => .error e
  | .ok ints => .ok (matchupMask st.scenarios ints beams)

/-- `AYTO._get_truth_booth_idx`: the mask `scenarios[:, guy_idx] ==
girl_idx`, negated when `match` is false. -/
def get_truth_booth_idx (scenarios : List (List Nat)) (guy_idx girl_idx : Nat)
    (isMatch : Bool) : List Bool :=
  let idx := scenarios.map fun r => decide (r.getD guy_idx 0 = girl_idx)
  if isMatch then idx else maskNot idx

/-- `retainWhere` of the spec's CandidateSet: the combination
`_get_matchup_idx` + boolean indexing that both constraint kinds go
through. -/
def retainWhere (scenarios : List (List Nat)) (ints : List Int) (beams : Int) :
    List (List Nat) :=
  maskSelect scenarios (matchupMask scenarios ints beams)

/-- `AYTO.apply_truth_booth`.  Statement order as in the source: resolve
the guy then the girl (raising before any mutation), filter `_scenarios`,
recompute probabilities when `calc_probs` (a contradiction raises *here*,
after the filter assignment and before the history append), append the
record, return the remaining count. -/
def apply_truth_booth (st : AYTO) (guy girl : String) (isMatch : Bool)
    (calc_probs : Bool) : Except (AytoError × AYTO) (AYTO × Nat) :=
  match nameId st.guys guy with
  | none => .error (.unknownName guy (dictKeys st.guys), st)
  | some guy_idx =>
    match nameId st.girls girl with
    | none => .error (.unknownName girl (dictKeys st.girls), st)
    | some girl_idx =>
      let idx := get_truth_booth_idx st.scenarios guy_idx girl_idx isMatch
      let st1 := { st with scenarios := maskSelect st.scenarios idx }
      match (if calc_probs then calculate_probabilities st1 else .ok st1) with
      | .error e => .error e
      | .ok st2 =>
        let st3 := { st2 with history := st2.history ++ [.truthBooth guy girl isMatch] }
        .ok (st3, num_scenarios st3)

/-- `AYTO.apply_matchup_ceremony`: same shape, going through
`_get_matchup_idx` (which raises on an unknown name before any
mutation). -/
def apply_matchup_ceremony (st : AYTO) (matchup : List (String × String))
    (beams : Int) (calc_probs : Bool) : Except (AytoError × AYTO) (AYTO × Nat) :=
  match get_matchup_idx st matchup beams with
  | .error e => .error (e, st)
  | .ok idx =>
    let st1 := { st with scenarios := maskSelect st.scenarios idx }
    match (if calc_probs then calculate_probabilities st1 else .ok st1) with
    | .error e => .error e
    | .ok st2 =>
      let st3 := { st2 with history := st2.history ++ [.matchupCeremony matchup beams] }
      .ok (st3, num_scenarios st3)

/-- The `non_matches` loop of `try_partial_scenario`: for each non-match
pair, `idx = idx & ~self._get_matchup_idx([non_match], 1)`. -/
def nonMatchesFold (st : AYTO) (idx : List Bool) :
    List (String × String) → Except AytoError (List Bool)
  | [] => .ok idx
  | p :: rest =>
    match get_matchup_idx st [p] 1 with
    | .error e => .error e
    | .ok m => nonMatchesFold st (maskAnd idx (maskNot m)) rest

/-- The `if matches:` block of `try_partial_scenario`: Python truthiness,
so a present-but-empty list filters nothing; a present non-empty list
intersects with `self._get_matchup_idx(matches, len(matches))`. -/
def matchesIdx (st : AYTO) (idx0 : List Bool) :
    Option (List (String × String)) → Except AytoError (List Bool)
  | some l =>
    if l.isEmpty then .ok idx0
    else
      match get_matchup_idx st l (l.length : Int) with
      | .error e => .error e
      | .ok m => .ok (maskAnd idx0 m)
  | none => .ok idx0

/-- The `if non_matches:` block of `try_partial_scenario`. -/
def nonMatchesIdx (st : AYTO) (idx1 : List Bool) :
    Option (List (String × String)) → Except AytoError (List Bool)
  | some l => if l.isEmpty then .ok idx1 else nonMatchesFold st idx1 l
  | none => .ok idx1

/-- `AYTO.try_partial_scenario`.  `none` is Python's `None`.  The returned
state is the calling engine's state after the call (the method only binds
locals).  Result: remaining hypothetical count, its ratio to the current
total, and the probability table of the filtered subset. -/
def try_partial_scenario (st : AYTO) (matches' non_matches : Option (List (String × String))) :
    Except (AytoError × AYTO) (AYTO × Nat × ℚ × List (List ℚ)) :=
  if matches'.isNone ∧ non_matches.isNone then
    .error (.invalidQuery, st)
  else
    match matchesIdx st (List.replicate (num_scenarios st) true) matches' with
    | .error e => .error (e, st)
    | .ok idx1 =>
      match nonMatchesIdx st idx1 non_matches with
      | .error e => .error (e, st)
      | .ok idx2 =>
        let scenarios := maskSelect st.scenarios idx2
        let num_hyp := scenarios.length
        match calcProbsOf st.guys st.girls scenarios with
        | .error e => .error (e, st)
        | .ok probabilities =>
          .ok (st, num_hyp, (num_hyp : ℚ) / (num_scenarios st : ℚ), probabilities)

/-- The payload of `_serialize` / `save`: the two name lists and the
ordered history. -/
structure SaveData where
  guys : List String
  girls : List String
  history : List Event
deriving DecidableEq, Repr

/-- `AYTO._serialize`. -/
def serialize (st : AYTO) : SaveData :=
  { guys := st.guys, girls := st.girls, history := st.history }

/-- Apply one history record through the public mutation operation it
records, keeping the resulting state. -/
def applyEvent (st : AYTO) (e : Event) (calc_probs : Bool) :
    Except (AytoError × AYTO) AYTO :=
  match e with
  | .truthBooth guy girl isMatch =>
    match apply_truth_booth st guy girl isMatch calc_probs with
    | .error err => .error err
    | .ok (st', _) => .ok st'
  | .matchupCeremony matchup beams =>
    match apply_matchup_ceremony st matchup beams calc_probs with
    | .error err => .error err
    | .ok (st', _) => .ok st'

/-- Apply a sequence of observations in order. -/
def runEvents (st : AYTO) (events : List Event) (calc_probs : Bool) :
    Except (AytoError × AYTO) AYTO :=
  match events with
  | [] => .ok st
  | e :: rest =>
    match applyEvent st e calc_probs with
    | .error err => .error err
    | .ok st' => runEvents st' rest calc_probs

/-- `AYTO.load`: fresh engine for the saved names, replay the history
through the public operations with `calc_probs=False`, then recompute
probabilities once. -/
def load (d : SaveData) : Except (AytoError × AYTO) AYTO :=
  match runEvents (init d.guys d.girls) d.history false with
  | .error err => .error err
  | .ok st => calculate_probabilities st

/-! ## Basic facts about masks and boolean-mask selection -/

theorem maskSelect_nil_left {α : Type} (mask : List Bool) :
    maskSelect ([] : List α) mask = [] := by
  simp [maskSelect]

theorem maskSelect_cons {α : Type} (x : α) (xs : List α) (b : Bool) (bs : List Bool) :
    maskSelect (x :: xs) (b :: bs) =
      if b then x :: maskSelect xs bs else maskSelect xs bs := by
  cases b <;> simp [maskSelect]

theorem maskSelect_map {α : Type} (l : List α) (p : α → Bool) :
    maskSelect l (l.map p) = l.filter p := by
  induction l with
  | nil => rfl
  | cons x xs ih =>
    rw [List.map_cons, maskSelect_cons, List.filter_cons, ih]

theorem maskSelect_sublist {α : Type} (l : List α) (mask : List Bool) :
    (maskSelect l mask).Sublist l := by
  induction l generalizing mask with
  | nil => simp [maskSelect]
  | cons x xs ih =>
    cases mask with
    | nil => simp [maskSelect]
    | cons b bs =>
      rw [maskSelect_cons]
      cases b with
      | false => exact (ih bs).cons x
      | true => simpa using (ih bs).cons₂ x

theorem maskNot_map {α : Type} (l : List α) (p : α → Bool) :
    maskNot (l.map p) = l.map fun x => !(p x) := by
  simp [maskNot, List.map_map, Function.comp]

/-! ## The agreement count: the code's full comparison against the
`-1`-padded list coincides with the spec's count over assigned positions -/

theorem countAgree_eq_assigned (r : List Nat) (m : List Int) :
    countAgree r m = countAgreeAssigned r m := by
  unfold countAgree countAgreeAssigned
  induction r generalizing m with
  | nil => simp
  | cons x xs ih =>
    cases m with
    | nil => simp
    | cons y ys =>
      rw [List.zip_cons_cons, List.countP_cons, List.countP_cons, ih ys]
      congr 1
      by_cases h : (x : Int) = y
      · have : y ≠ -1 := by omega
        simp [h, this]
      · simp [h]

/-- Claim C1: for every candidate set, every partial assignment (entries
`-1` marking unassigned positions) and every integer expected count, the
count-match filter `retainWhere` keeps exactly those scenarios whose
number of positions agreeing with the assignment — counted only over
assigned positions, unassigned positions never contributing — equals the
expected count; and any constraint application (count-match or
exact-match) yields a sublist of the previous candidate collection, i.e. a
subset preserving the relative order of surviving scenarios. -/
theorem retainWhere_keeps_exactly_expected_count
    (scenarios : List (List Nat)) (ints : List Int) (beams : Int) :
    retainWhere scenarios ints beams =
      scenarios.filter (fun r => decide ((countAgreeAssigned r ints : Int) = beams)) ∧
    (retainWhere scenarios ints beams).Sublist scenarios ∧
    ∀ (guy_idx girl_idx : Nat) (isMatch : Bool),
      (maskSelect scenarios
        (get_truth_booth_idx scenarios guy_idx girl_idx isMatch)).Sublist scenarios := by
  refine ⟨?_, maskSelect_sublist _ _, fun _ _ _ => maskSelect_sublist _ _⟩
  unfold retainWhere matchupMask
  rw [maskSelect_map]
  exact List.filter_congr fun r _ => by rw [countAgree_eq_assigned]

/-! ## Name resolution -/

theorem nameId_lt (names : List String) (x : String) (i : Nat)
    (h : nameId names x = some i) : i < names.length := by
  unfold nameId at h
  have key : ∀ (l : List (Nat × String)) (acc : Option Nat),
      (∀ j, acc = some j → j < names.length) → (∀ p ∈ l, p.1 < names.length) →
      ∀ j, l.foldl (fun a p => if p.2 = x then some p.1 else a) acc = some j →
        j < names.length := by
    intro l
    induction l with
    | nil => intro acc hacc _ j hj; exact hacc j hj
    | cons p ps ih =>
      intro acc hacc hl j hj
      refine ih _ ?_ (fun q hq => hl q (List.mem_cons_of_mem _ hq)) j hj
      intro k hk
      by_cases hp : p.2 = x
      · simp only [hp, if_pos rfl] at hk
        cases hk
        exact hl p (List.mem_cons_self _ _)
      · simp only [hp, if_neg, ite_false] at hk
        exact hacc k hk
  refine key names.enum none (by simp) ?_ i h
  intro p hp
  exact List.fst_lt_of_mem_enum hp

/-! ## Agreement against a singleton assignment -/

theorem countAgree_replicate_neg (r : List Nat) (k : Nat) :
    countAgree r (List.replicate k (-1 : Int)) = 0 := by
  induction r generalizing k with
  | nil => simp [countAgree]
  | cons x xs ih =>
    cases k with
    | zero => simp [countAgree]
    | succ k' =>
      rw [List.replicate_succ]
      unfold countAgree at ih ⊢
      rw [List.zip_cons_cons, List.countP_cons, ih k']
      have : ¬ ((x : Int) = -1) := by omega
      simp [this]

theorem countAgree_single (r : List Nat) (n guy_idx girl_idx : Nat)
    (hr : r.length = n) (hgi : guy_idx < n) :
    countAgree r ((List.replicate n (-1 : Int)).set guy_idx (girl_idx : Int)) =
      if r.getD guy_idx 0 = girl_idx then 1 else 0 := by
  induction r generalizing n guy_idx with
  | nil => simp at hr; omega
  | cons x xs ih =>
    cases n with
    | zero => omega
    | succ n' =>
      have hxs : xs.length = n' := by simpa using hr
      rw [List.replicate_succ]
      cases guy_idx with
      | zero =>
        rw [List.set_cons_zero]
        unfold countAgree
        rw [List.zip_cons_cons, List.countP_cons]
        have h0 := countAgree_replicate_neg xs n'
        unfold countAgree at h0
        rw [h0]
        simp only [List.getD_cons_zero]
        by_cases h : x = girl_idx
        · simp [h]
        · have : ¬ ((x : Int) = (girl_idx : Int)) := by exact_mod_cast h
          simp [h, this]
      | succ g' =>
        rw [List.set_cons_succ]
        unfold countAgree
        rw [List.zip_cons_cons, List.countP_cons]
        have hrec := ih n' g' hxs (by omega)
        unfold countAgree at hrec
        rw [hrec]
        simp only [List.getD_cons_succ]
        have : ¬ ((x : Int) = -1) := by omega
        simp [this]

/-- Claim C3: for every engine state with well-formed rows, every pair of
valid names and every boolean, the dedicated exact-match path
(`apply_truth_booth`) retains exactly the same surviving scenarios as the
general count-match path (`apply_matchup_ceremony`) run on the size-1
assignment with expected count 1 (match) or 0 (non-match). -/
theorem truth_booth_equiv_matchup (st : AYTO) (a b : String) (isMatch : Bool)
    (ga gb : Nat) (ha : nameId st.guys a = some ga) (hb : nameId st.girls b = some gb)
    (hn : st.n = st.guys.length) (hrows : ∀ r ∈ st.scenarios, r.length = st.n) :
    ∃ st₁ k₁ st₂ k₂,
      apply_truth_booth st a b isMatch false = .ok (st₁, k₁) ∧
      apply_matchup_ceremony st [(a, b)] (if isMatch then 1 else 0) false = .ok (st₂, k₂) ∧
      st₁.scenarios = st₂.scenarios ∧ k₁ = k₂ := by
  have hga : ga < st.n := hn ▸ nameId_lt st.guys a ga ha
  have hints : matchupInts st.guys st.girls st.n [(a, b)] =
      (List.replicate st.n (-1 : Int)).set ga (gb : Int) := by
    simp [matchupInts, ha, hb]
  have hcheck : checkNames st.guys st.girls [(a, b)] = none := by
    simp [checkNames, ha, hb]
  have hmask : get_truth_booth_idx st.scenarios ga gb isMatch =
      matchupMask st.scenarios (matchupInts st.guys st.girls st.n [(a, b)])
        (if isMatch then 1 else 0) := by
    rw [hints]
    unfold get_truth_booth_idx matchupMask
    cases isMatch with
    | true =>
      simp only [if_pos trivial, reduceIte]
      refine List.map_congr_left fun r hr => ?_
      rw [countAgree_single r st.n ga gb (hrows r hr) hga]
      by_cases h : r.getD ga 0 = gb <;> simp [h]
    | false =>
      simp only [Bool.false_eq_true, reduceIte]
      rw [maskNot_map]
      refine List.map_congr_left fun r hr => ?_
      rw [countAgree_single r st.n ga gb (hrows r hr) hga]
      by_cases h : r.getD ga 0 = gb <;> simp [h]
  have h1 : apply_truth_booth st a b isMatch false =
      .ok ({ st with
              scenarios :=
                maskSelect st.scenarios (get_truth_booth_idx st.scenarios ga gb isMatch),
              history := st.history ++ [.truthBooth a b isMatch] },
            (maskSelect st.scenarios (get_truth_booth_idx st.scenarios ga gb isMatch)).length) := by
    unfold apply_truth_booth
    rw [ha, hb]
    rfl
  have h2 : apply_matchup_ceremony st [(a, b)] (if isMatch then 1 else 0) false =
      .ok ({ st with
              scenarios :=
                maskSelect st.scenarios
                  (matchupMask st.scenarios (matchupInts st.guys st.girls st.n [(a, b)])
                    (if isMatch then 1 else 0)),
              history := st.history ++ [.matchupCeremony [(a, b)] (if isMatch then 1 else 0)] },
            (maskSelect st.scenarios
              (matchupMask st.scenarios (matchupInts st.guys st.girls st.n [(a, b)])
                (if isMatch then 1 else 0))).length) := by
    unfold apply_matchup_ceremony get_matchup_idx parse_matchup
    rw [hcheck]
    rfl
  refine ⟨_, _, _, _, h1, h2, ?_, ?_⟩
  · show maskSelect st.scenarios _ = maskSelect st.scenarios _
    exact congrArg (maskSelect st.scenarios) hmask
  · exact congrArg (fun m => (maskSelect st.scenarios m).length) hmask

/-! ## Error behaviour of probability computation and filtering -/

/-- Claim C5: probability computation raises ImpossibleScenario iff the
candidate collection it is given is empty — `_calculate_probabilities`
raises exactly on the empty collection and succeeds otherwise, the
engine-level recomputation raises (leaving the state untouched) exactly
when the persistent set is empty, and filtering the candidate set (with
recomputation deferred) never raises at filter time, even down to empty. -/
theorem impossible_scenario_iff_empty :
    (∀ (guys girls : List String) (s : List (List Nat)),
      (calcProbsOf guys girls s = .error .impossibleScenario ↔ s = []) ∧
      (s ≠ [] → ∃ t, calcProbsOf guys girls s = .ok t)) ∧
    (∀ st : AYTO,
      (calculate_probabilities st = .error (.impossibleScenario, st) ↔ st.scenarios = []) ∧
      (st.scenarios ≠ [] → ∃ st', calculate_probabilities st = .ok st')) ∧
    (∀ (st : AYTO) (guy girl : String) (isMatch : Bool) (ga gb : Nat),
      nameId st.guys guy = some ga → nameId st.girls girl = some gb →
      ∃ st' k, apply_truth_booth st guy girl isMatch false = .ok (st', k)) ∧
    (∀ (st : AYTO) (matchup : List (String × String)) (beams : Int),
      checkNames st.guys st.girls matchup = none →
      ∃ st' k, apply_matchup_ceremony st matchup beams false = .ok (st', k)) := by
  have hbase : ∀ (guys girls : List String) (s : List (List Nat)),
      (calcProbsOf guys girls s = .error .impossibleScenario ↔ s = []) ∧
      (s ≠ [] → ∃ t, calcProbsOf guys girls s = .ok t) := by
    intro guys girls s
    unfold calcProbsOf
    by_cases h : s.length = 0
    · rw [List.length_eq_zero] at h
      subst h
      simp
    · have hne : s ≠ [] := fun he => h (by simp [he])
      simp only [if_neg h]
      exact ⟨⟨fun hcontra => absurd hcontra (by simp), fun he => absurd he hne⟩,
        fun _ => ⟨_, rfl⟩⟩
  refine ⟨hbase, ?_, ?_, ?_⟩
  · intro st
    obtain ⟨h1, h2⟩ := hbase st.guys st.girls st.scenarios
    constructor
    · constructor
      · intro h
        unfold calculate_probabilities at h
        cases hc : calcProbsOf st.guys st.girls st.scenarios with
        | error e =>
          rw [hc] at h
          have he : e = .impossibleScenario := by
            injection h with h'
            exact (Prod.mk.injEq _ _ _ _ ▸ h').1
          exact h1.mp (he ▸ hc)
        | ok t =>
          rw [hc] at h
          cases h
      · intro h
        unfold calculate_probabilities
        rw [h1.mpr h]
    · intro h
      obtain ⟨t, ht⟩ := h2 h
      exact ⟨_, by unfold calculate_probabilities; rw [ht]⟩
  · intro st guy girl isMatch ga gb ha hb
    refine ⟨{ st with
        scenarios := maskSelect st.scenarios (get_truth_booth_idx st.scenarios ga gb isMatch),
        history := st.history ++ [.truthBooth guy girl isMatch] },
      (maskSelect st.scenarios (get_truth_booth_idx st.scenarios ga gb isMatch)).length, ?_⟩
    unfold apply_truth_booth
    rw [ha, hb]
    rfl
  · intro st matchup beams hcheck
    refine ⟨{ st with
        scenarios := maskSelect st.scenarios
          (matchupMask st.scenarios (matchupInts st.guys st.girls st.n matchup) beams),
        history := st.history ++ [.matchupCeremony matchup beams] },
      (maskSelect st.scenarios
        (matchupMask st.scenarios (matchupInts st.guys st.girls st.n matchup) beams)).length, ?_⟩
    unfold apply_matchup_ceremony get_matchup_idx parse_matchup
    rw [hcheck]
    rfl

/-! ## Unknown names abort before any mutation -/

theorem checkNames_some_of_unknown (guys girls : List String)
    (matchup : List (String × String))
    (h : ∃ p ∈ matchup, nameId guys p.1 = none ∨ nameId girls p.2 = none) :
    ∃ nm v, checkNames guys girls matchup = some (.unknownName nm v) ∧
      ((nameId guys nm = none ∧ v = dictKeys guys) ∨
       (nameId girls nm = none ∧ v = dictKeys girls)) := by
  induction matchup with
  | nil => simp at h
  | cons q rest ih =>
    obtain ⟨qa, qb⟩ := q
    cases hg : nameId guys qa with
    | none =>
      refine ⟨qa, dictKeys guys, ?_, Or.inl ⟨hg, rfl⟩⟩
      simp [checkNames, hg]
    | some ga =>
      cases hb : nameId girls qb with
      | none =>
        refine ⟨qb, dictKeys girls, ?_, Or.inr ⟨hb, rfl⟩⟩
        simp [checkNames, hg, hb]
      | some gb =>
        have hrest : ∃ p ∈ rest, nameId guys p.1 = none ∨ nameId girls p.2 = none := by
          obtain ⟨p, hp, hun⟩ := h
          rcases List.mem_cons.mp hp with heq | hmem
          · subst heq
            rcases hun with h' | h' <;> simp [hg, hb] at h'
          · exact ⟨p, hmem, hun⟩
        obtain ⟨nm, v, hc, hside⟩ := ih hrest
        refine ⟨nm, v, ?_, hside⟩
        simpa [checkNames, hg, hb] using hc

/-- Claim C7: a call to `apply_truth_booth` or `apply_matchup_ceremony`
containing a name not registered on its side raises UnknownParticipant
during name resolution, before any mutation — the returned error carries
the engine state exactly as it was (same candidate set, same history), and
the error enumerates the valid names of the offending side; all names are
validated before any filtering occurs. -/
theorem unknown_name_raises_before_mutation :
    (∀ (st : AYTO) (guy girl : String) (isMatch calc_probs : Bool),
      nameId st.guys guy = none ∨ nameId st.girls girl = none →
      ∃ nm v, apply_truth_booth st guy girl isMatch calc_probs =
          .error (.unknownName nm v, st) ∧
        ((nameId st.guys nm = none ∧ v = dictKeys st.guys) ∨
         (nameId st.girls nm = none ∧ v = dictKeys st.girls))) ∧
    (∀ (st : AYTO) (matchup : List (String × String)) (beams : Int) (calc_probs : Bool),
      (∃ p ∈ matchup, nameId st.guys p.1 = none ∨ nameId st.girls p.2 = none) →
      ∃ nm v, apply_matchup_ceremony st matchup beams calc_probs =
          .error (.unknownName nm v, st) ∧
        ((nameId st.guys nm = none ∧ v = dictKeys st.guys) ∨
         (nameId st.girls nm = none ∧ v = dictKeys st.girls))) := by
  constructor
  · intro st guy girl isMatch calc_probs h
    cases hg : nameId st.guys guy with
    | none =>
      refine ⟨guy, dictKeys st.guys, ?_, Or.inl ⟨hg, rfl⟩⟩
      unfold apply_truth_booth
      rw [hg]
    | some ga =>
      cases hb : nameId st.girls girl with
      | none =>
        refine ⟨girl, dictKeys st.girls, ?_, Or.inr ⟨hb, rfl⟩⟩
        unfold apply_truth_booth
        rw [hg, hb]
      | some gb =>
        rcases h with h' | h' <;> simp [hg, hb] at h'
  · intro st matchup beams calc_probs h
    obtain ⟨nm, v, hc, hside⟩ := checkNames_some_of_unknown st.guys st.girls matchup h
    refine ⟨nm, v, ?_, hside⟩
    unfold apply_matchup_ceremony get_matchup_idx parse_matchup
    rw [hc]

/-! ## Hypothetical queries -/

/-- Claim C9: `try_partial_scenario` leaves the engine's persistent state
unchanged on every path, returning or raising: the state observable after
the call (the carried state of a raise, or the state alongside a result)
is exactly the state before, so `num_scenarios`, the surviving candidate
set, the cached probability table and the history are all identical. -/
theorem try_partial_no_mutation (st : AYTO)
    (matches' non_matches : Option (List (String × String))) :
    (∀ (st' : AYTO) (out : Nat × ℚ × List (List ℚ)),
      try_partial_scenario st matches' non_matches = .ok (st', out) → st' = st) ∧
    (∀ (e : AytoError) (st'' : AYTO),
      try_partial_scenario st matches' non_matches = .error (e, st'') → st'' = st) := by
  constructor
  · intro st' out h
    unfold try_partial_scenario at h
    split at h
    · cases h
    · cases hA : matchesIdx st (List.replicate (num_scenarios st) true) matches' with
      | error eA => simp only [hA] at h; cases h
      | ok idx1 =>
        simp only [hA] at h
        cases hB : nonMatchesIdx st idx1 non_matches with
        | error eB => simp only [hB] at h; cases h
        | ok idx2 =>
          simp only [hB] at h
          cases hC : calcProbsOf st.guys st.girls (maskSelect st.scenarios idx2) with
          | error eC => simp only [hC] at h; cases h
          | ok t => simp only [hC] at h; cases h; rfl
  · intro e st'' h
    unfold try_partial_scenario at h
    split at h
    · cases h; rfl
    · cases hA : matchesIdx st (List.replicate (num_scenarios st) true) matches' with
      | error eA => simp only [hA] at h; cases h; rfl
      | ok idx1 =>
        simp only [hA] at h
        cases hB : nonMatchesIdx st idx1 non_matches with
        | error eB => simp only [hB] at h; cases h; rfl
        | ok idx2 =>
          simp only [hB] at h
          cases hC : calcProbsOf st.guys st.girls (maskSelect st.scenarios idx2) with
          | error eC => simp only [hC] at h; cases h; rfl
          | ok t => simp only [hC] at h; cases h

theorem checkNames_error_shape (guys girls : List String)
    (matchup : List (String × String)) (e : AytoError)
    (h : checkNames guys girls matchup = some e) :
    ∃ nm v, e = .unknownName nm v := by
  induction matchup with
  | nil => simp [checkNames] at h
  | cons q rest ih =>
    obtain ⟨qa, qb⟩ := q
    unfold checkNames at h
    split at h
    · exact ⟨_, _, (Option.some.injEq _ _ ▸ h).symm⟩
    · split at h
      · exact ⟨_, _, (Option.some.injEq _ _ ▸ h).symm⟩
      · exact ih h

theorem get_matchup_idx_error_shape (st : AYTO) (matchup : List (String × String))
    (beams : Int) (e : AytoError) (h : get_matchup_idx st matchup beams = .error e) :
    ∃ nm v, e = .unknownName nm v := by
  unfold get_matchup_idx parse_matchup at h
  cases hc : checkNames st.guys st.girls matchup with
  | none => rw [hc] at h; cases h
  | some e' =>
    rw [hc] at h
    cases h
    exact checkNames_error_shape st.guys st.girls matchup e hc

theorem nonMatchesFold_error_shape (st : AYTO) (e : AytoError) :
    ∀ (l : List (String × String)) (idx : List Bool),
      nonMatchesFold st idx l = .error e → ∃ nm v, e = .unknownName nm v := by
  intro l
  induction l with
  | nil => intro idx h; cases h
  | cons p rest ih =>
    intro idx h
    unfold nonMatchesFold at h
    split at h
    · cases h
      exact get_matchup_idx_error_shape st [p] 1 e (by assumption)
    · exact ih _ h

theorem calcProbsOf_error_shape (guys girls : List String) (s : List (List Nat))
    (e : AytoError) (h : calcProbsOf guys girls s = .error e) :
    e = .impossibleScenario := by
  unfold calcProbsOf at h
  split at h
  · cases h; rfl
  · cases h

theorem matchesIdx_error_shape (st : AYTO) (idx0 : List Bool)
    (o : Option (List (String × String))) (e : AytoError)
    (h : matchesIdx st idx0 o = .error e) : ∃ nm v, e = .unknownName nm v := by
  cases o with
  | none => cases h
  | some l =>
    simp only [matchesIdx] at h
    by_cases hl : l.isEmpty
    · rw [if_pos hl] at h
      cases h
    · rw [if_neg hl] at h
      cases hg : get_matchup_idx st l (l.length : Int) with
      | error e' =>
        rw [hg] at h
        cases h
        exact get_matchup_idx_error_shape st l (l.length : Int) e hg
      | ok m => rw [hg] at h; cases h

theorem nonMatchesIdx_error_shape (st : AYTO) (idx1 : List Bool)
    (o : Option (List (String × String))) (e : AytoError)
    (h : nonMatchesIdx st idx1 o = .error e) : ∃ nm v, e = .unknownName nm v := by
  cases o with
  | none => cases h
  | some l =>
    simp only [nonMatchesIdx] at h
    by_cases hl : l.isEmpty
    · rw [if_pos hl] at h
      cases h
    · rw [if_neg hl] at h
      exact nonMatchesFold_error_shape st e l idx1 h

instance {e a : Type} [DecidableEq e] [DecidableEq a] : DecidableEq (Except e a) := fun x y =>
  match x, y with
  | .error u, .error v =>
    if h : u = v then isTrue (by rw [h]) else isFalse (fun hc => h (by cases hc; rfl))
  | .ok u, .ok v =>
    if h : u = v then isTrue (by rw [h]) else isFalse (fun hc => h (by cases hc; rfl))
  | .error _, .ok _ => isFalse (fun hc => by cases hc)
  | .ok _, .error _ => isFalse (fun hc => by cases hc)

/-- A concrete engine with two participants per side, used to exercise the
operations at explicit inputs. -/
def demoEngine : AYTO := init ["Al", "Bo"] ["Xa", "Yb"]

/-- Counterexample to claim C8: supplying both lists present but *empty*
does not raise InvalidQuery — since only `None` arguments count as absent,
the call goes through, filters nothing, and returns a result (here the
engine's full candidate set of 2 scenarios, state untouched). -/
theorem try_partial_empty_lists_returns :
    (match try_partial_scenario demoEngine (some []) (some []) with
     | .ok (st', k, _, _) => st' = demoEngine ∧ k = 2
     | .error _ => False) :=
  ⟨rfl, rfl⟩

/-- Claim C8 (amended): `try_partial_scenario` raises InvalidQuery iff
*both* arguments are absent (`None`); a present-but-empty list does not
trigger InvalidQuery — with any argument present the call never produces
InvalidQuery (its errors are UnknownParticipant from name resolution or
ImpossibleScenario from probability computation). -/
theorem invalid_query_iff_both_absent :
    (∀ (st : AYTO) (matches' non_matches : Option (List (String × String))),
      matches' = none ∧ non_matches = none →
      try_partial_scenario st matches' non_matches = .error (.invalidQuery, st)) ∧
    (∀ (st : AYTO) (matches' non_matches : Option (List (String × String)))
        (e : AytoError) (st' : AYTO),
      ¬(matches' = none ∧ non_matches = none) →
      try_partial_scenario st matches' non_matches = .error (e, st') →
      e ≠ .invalidQuery) := by
  constructor
  · rintro st m nm ⟨rfl, rfl⟩
    rfl
  · intro st m nm e st' hcond h
    unfold try_partial_scenario at h
    rw [if_neg (by simpa [Option.isNone_iff_eq_none] using hcond)] at h
    cases hA : matchesIdx st (List.replicate (num_scenarios st) true) m with
    | error eA =>
      simp only [hA] at h
      cases h
      obtain ⟨nm', v, he⟩ := matchesIdx_error_shape st _ m _ hA
      simp [he]
    | ok idx1 =>
      simp only [hA] at h
      cases hB : nonMatchesIdx st idx1 nm with
      | error eB =>
        simp only [hB] at h
        cases h
        obtain ⟨nm', v, he⟩ := nonMatchesIdx_error_shape st idx1 nm _ hB
        simp [he]
      | ok idx2 =>
        simp only [hB] at h
        cases hC : calcProbsOf st.guys st.girls (maskSelect st.scenarios idx2) with
        | error eC =>
          simp only [hC] at h
          cases h
          simp [calcProbsOf_error_shape _ _ _ _ hC]
        | ok t =>
          simp only [hC] at h
          cases h

/-! ## Duplicate guys in one matchup list: the last pair wins -/

theorem foldl_set_later_overwrites {α : Type} (ki : α → Nat) (vi : α → Int) :
    ∀ (rest : List α) (l : List Int) (i : Nat) (v : Int),
      (∃ q ∈ rest, ki q = i) →
      rest.foldl (fun acc q => acc.set (ki q) (vi q)) (l.set i v) =
        rest.foldl (fun acc q => acc.set (ki q) (vi q)) l := by
  intro rest
  induction rest with
  | nil => intro l i v h; simp at h
  | cons q rest' ih =>
    intro l i v h
    by_cases hq : ki q = i
    · simp only [List.foldl_cons, hq, List.set_set]
    · have hrest : ∃ p ∈ rest', ki p = i := by
        obtain ⟨p, hp, hpi⟩ := h
        rcases List.mem_cons.mp hp with rfl | hmem
        · exact absurd hpi hq
        · exact ⟨p, hmem, hpi⟩
      simp only [List.foldl_cons]
      rw [List.set_comm _ _ _ (Ne.symm hq)]
      exact ih _ i v hrest

theorem checkNames_eq_none_iff (guys girls : List String)
    (l : List (String × String)) :
    checkNames guys girls l = none ↔
      ∀ p ∈ l, (nameId guys p.1).isSome ∧ (nameId girls p.2).isSome := by
  induction l with
  | nil => simp [checkNames]
  | cons q rest ih =>
    obtain ⟨qa, qb⟩ := q
    rcases Option.eq_none_or_eq_some (nameId guys qa) with hg | ⟨ga, hg⟩
    · simp [checkNames, hg]
    · rcases Option.eq_none_or_eq_some (nameId girls qb) with hb | ⟨gb, hb⟩
      · simp [checkNames, hg, hb]
      · simp [checkNames, hg, hb, ih]

/-- Claim C10: when the same guy appears in more than one pair of a single
matchup list — the earlier pair sitting anywhere in the list, not only at
its head — the engine raises no error (parsing succeeds) and the partial
assignment is built from only the last pair mentioning that guy: dropping
the earlier duplicate pair changes neither the parsed assignment nor
which scenarios survive. -/
theorem duplicate_guy_last_pair_wins (st : AYTO) (pre : List (String × String))
    (q : String × String) (post : List (String × String)) (beams : Int)
    (hvalid : checkNames st.guys st.girls (pre ++ q :: post) = none)
    (hdup : ∃ p ∈ post, nameId st.guys p.1 = nameId st.guys q.1) :
    parse_matchup st.guys st.girls st.n (pre ++ q :: post) =
      .ok (matchupInts st.guys st.girls st.n (pre ++ post)) ∧
    parse_matchup st.guys st.girls st.n (pre ++ q :: post) =
      parse_matchup st.guys st.girls st.n (pre ++ post) ∧
    get_matchup_idx st (pre ++ q :: post) beams =
      get_matchup_idx st (pre ++ post) beams := by
  have hvalid' : checkNames st.guys st.girls (pre ++ post) = none := by
    rw [checkNames_eq_none_iff] at hvalid ⊢
    intro p hp
    refine hvalid p ?_
    rcases List.mem_append.mp hp with h | h
    · exact List.mem_append.mpr (Or.inl h)
    · exact List.mem_append.mpr (Or.inr (List.mem_cons_of_mem _ h))
  have hints : matchupInts st.guys st.girls st.n (pre ++ q :: post) =
      matchupInts st.guys st.girls st.n (pre ++ post) := by
    unfold matchupInts
    rw [List.foldl_append, List.foldl_append, List.foldl_cons]
    exact foldl_set_later_overwrites
      (fun p => (nameId st.guys p.1).getD 0)
      (fun p => (((nameId st.girls p.2).getD 0 : Nat) : Int))
      post _ _ _
      (hdup.imp fun p hh => ⟨hh.1, congrArg (fun o => Option.getD o 0) hh.2⟩)
  refine ⟨?_, ?_, ?_⟩
  · unfold parse_matchup
    rw [hvalid, hints]
  · unfold parse_matchup
    rw [hvalid, hvalid', hints]
  · unfold get_matchup_idx parse_matchup
    rw [hvalid, hvalid', hints]

/-! ## Constraint application: shrink, append, and the contradiction path -/

theorem calcProbsOf_error_iff (guys girls : List String) (s : List (List Nat))
    (e : AytoError) :
    calcProbsOf guys girls s = .error e ↔ (s = [] ∧ e = .impossibleScenario) := by
  unfold calcProbsOf
  by_cases h : s.length = 0
  · rw [List.length_eq_zero] at h
    subst h
    simp only [List.length_nil, if_pos rfl]
    constructor
    · intro hh
      cases hh
      exact ⟨trivial, rfl⟩
    · rintro ⟨-, rfl⟩
      rfl
  · have hne : s ≠ [] := fun he => h (by simp [he])
    simp only [if_neg h]
    constructor
    · intro hh
      cases hh
    · rintro ⟨he, -⟩
      exact absurd he hne

/-- `demoEngine` after a successful Truth Booth declaring "Al" and "Xa" a
match (with probability recomputation): one surviving scenario and one
history record. -/
def demoEngine1 : AYTO :=
  match apply_truth_booth demoEngine "Al" "Xa" true true with
  | .ok (st, _) => st
  | .error (_, st) => st

/-- Counterexample to claim C6: on `demoEngine1` (one scenario, one
history record) the contradicting Truth Booth "Al"/"Xa" non-match with
recomputation requested drives the surviving count to 0, and the
recomputation then raises ImpossibleScenario *before* the history append —
the call raises with the candidate set already assigned empty but with the
history still holding only the first record: no record is appended for
this call. -/
theorem contradiction_skips_history_append :
    (match apply_truth_booth demoEngine1 "Al" "Xa" false true with
     | .error (e, st2) =>
        e = .impossibleScenario ∧ st2.scenarios = [] ∧
        st2.history = demoEngine1.history ∧
        demoEngine1.history = [.truthBooth "Al" "Xa" true]
     | .ok _ => False) :=
  ⟨rfl, rfl, rfl, rfl⟩

/-- Claim C6 (amended): with valid names, each call to
`apply_truth_booth` / `apply_matchup_ceremony` assigns the candidate set a
sublist of the previous one (never growing it) and, when it returns,
appends exactly one history record and reports the remaining count; but
when recomputation is requested and the filter leaves zero scenarios, the
call instead raises ImpossibleScenario after the filter assignment and
before the history append — the candidate set is left empty and the
history is left without a new record. -/
theorem apply_shrinks_appends_unless_contradiction :
    (∀ (st : AYTO) (guy girl : String) (isMatch calc_probs : Bool) (ga gb : Nat),
      nameId st.guys guy = some ga → nameId st.girls girl = some gb →
      (∀ st' k, apply_truth_booth st guy girl isMatch calc_probs = .ok (st', k) →
        st'.scenarios.Sublist st.scenarios ∧
        st'.history = st.history ++ [.truthBooth guy girl isMatch] ∧
        k = st'.scenarios.length) ∧
      (∀ e st'', apply_truth_booth st guy girl isMatch calc_probs = .error (e, st'') →
        e = .impossibleScenario ∧ calc_probs = true ∧ st''.scenarios = [] ∧
        st''.history = st.history)) ∧
    (∀ (st : AYTO) (matchup : List (String × String)) (beams : Int) (calc_probs : Bool),
      checkNames st.guys st.girls matchup = none →
      (∀ st' k, apply_matchup_ceremony st matchup beams calc_probs = .ok (st', k) →
        st'.scenarios.Sublist st.scenarios ∧
        st'.history = st.history ++ [.matchupCeremony matchup beams] ∧
        k = st'.scenarios.length) ∧
      (∀ e st'', apply_matchup_ceremony st matchup beams calc_probs = .error (e, st'') →
        e = .impossibleScenario ∧ calc_probs = true ∧ st''.scenarios = [] ∧
        st''.history = st.history)) := by
  constructor
  · intro st guy girl isMatch calc_probs ga gb ha hb
    constructor
    · intro st' k h
      unfold apply_truth_booth at h
      rw [ha, hb] at h
      cases calc_probs with
      | false =>
        simp only [Bool.false_eq_true, if_false] at h
        cases h
        exact ⟨maskSelect_sublist _ _, rfl, rfl⟩
      | true =>
        simp only [if_true] at h
        unfold calculate_probabilities at h
        cases hC : calcProbsOf st.guys st.girls
            (maskSelect st.scenarios (get_truth_booth_idx st.scenarios ga gb isMatch)) with
        | error eC => simp only [hC] at h; cases h
        | ok t =>
          simp only [hC] at h
          cases h
          exact ⟨maskSelect_sublist _ _, rfl, rfl⟩
    · intro e st'' h
      unfold apply_truth_booth at h
      rw [ha, hb] at h
      cases calc_probs with
      | false =>
        simp only [Bool.false_eq_true, if_false] at h
        cases h
      | true =>
        simp only [if_true] at h
        unfold calculate_probabilities at h
        cases hC : calcProbsOf st.guys st.girls
            (maskSelect st.scenarios (get_truth_booth_idx st.scenarios ga gb isMatch)) with
        | error eC =>
          simp only [hC] at h
          cases h
          obtain ⟨hempty, he⟩ := (calcProbsOf_error_iff _ _ _ _).mp hC
          exact ⟨he, rfl, hempty, rfl⟩
        | ok t => simp only [hC] at h; cases h
  · intro st matchup beams calc_probs hcheck
    constructor
    · intro st' k h
      unfold apply_matchup_ceremony get_matchup_idx parse_matchup at h
      rw [hcheck] at h
      cases calc_probs with
      | false =>
        simp only [Bool.false_eq_true, if_false] at h
        cases h
        exact ⟨maskSelect_sublist _ _, rfl, rfl⟩
      | true =>
        simp only [if_true] at h
        unfold calculate_probabilities at h
        cases hC : calcProbsOf st.guys st.girls
            (maskSelect st.scenarios
              (matchupMask st.scenarios (matchupInts st.guys st.girls st.n matchup) beams)) with
        | error eC => simp only [hC] at h; cases h
        | ok t =>
          simp only [hC] at h
          cases h
          exact ⟨maskSelect_sublist _ _, rfl, rfl⟩
    · intro e st'' h
      unfold apply_matchup_ceremony get_matchup_idx parse_matchup at h
      rw [hcheck] at h
      cases calc_probs with
      | false =>
        simp only [Bool.false_eq_true, if_false] at h
        cases h
      | true =>
        simp only [if_true] at h
        unfold calculate_probabilities at h
        cases hC : calcProbsOf st.guys st.girls
            (maskSelect st.scenarios
              (matchupMask st.scenarios (matchupInts st.guys st.girls st.n matchup) beams)) with
        | error eC =>
          simp only [hC] at h
          cases h
          obtain ⟨hempty, he⟩ := (calcProbsOf_error_iff _ _ _ _).mp hC
          exact ⟨he, rfl, hempty, rfl⟩
        | ok t => simp only [hC] at h; cases h

/-! ## Correctness of the permutation generator -/

theorem insertIdx_perm {α : Type} (a : α) :
    ∀ (p : Nat) (l : List α), p ≤ l.length → (l.insertIdx p a).Perm (a :: l)
  | 0, l, _ => by simp
  | p + 1, [], h => by simp at h
  | p + 1, x :: xs, h => by
    rw [List.insertIdx_succ_cons]
    exact ((insertIdx_perm a p xs (by simpa using h)).cons x).trans (List.Perm.swap a x xs)

theorem insertIdx_getElem_eraseIdx {α : Type} :
    ∀ (l : List α) (p : Nat) (hp : p < l.length),
      (l.eraseIdx p).insertIdx p (l.get ⟨p, hp⟩) = l
  | x :: xs, 0, _ => by simp
  | x :: xs, p + 1, hp => by
    rw [List.eraseIdx_cons_succ, List.insertIdx_succ_cons]
    rw [show (x :: xs).get ⟨p + 1, hp⟩ = xs.get ⟨p, by simpa using hp⟩ from rfl]
    rw [insertIdx_getElem_eraseIdx xs p (by simpa using hp)]

theorem aux_mem_perm : ∀ (i : Nat), ∀ r ∈ fasterPermutationsAux i, r.Perm (List.range (i + 1))
  | 0 => by
    intro r hr
    simp only [fasterPermutationsAux, List.mem_singleton] at hr
    subst hr
    have : List.range 1 = [0] := rfl
    rw [this]
  | i + 1 => by
    intro r hr
    unfold fasterPermutationsAux permStep at hr
    rw [List.mem_flatMap] at hr
    obtain ⟨j, hj, hr⟩ := hr
    rw [List.mem_map] at hr
    obtain ⟨r₀, hr₀, rfl⟩ := hr
    have hperm := aux_mem_perm i r₀ hr₀
    have hlen : r₀.length = i + 1 := by simpa using hperm.length_eq
    have hp : i + 1 - j ≤ r₀.length := by omega
    refine (insertIdx_perm (i + 1) (i + 1 - j) r₀ hp).trans ?_
    refine (hperm.cons (i + 1)).trans ?_
    rw [List.range_succ (i + 1)]
    exact (List.perm_append_singleton _ _).symm

theorem aux_mem_length (i : Nat) (r : List Nat) (hr : r ∈ fasterPermutationsAux i) :
    r.length = i + 1 := by
  simpa using (aux_mem_perm i r hr).length_eq

theorem aux_mem_lt (i : Nat) (r : List Nat) (hr : r ∈ fasterPermutationsAux i)
    (x : Nat) (hx : x ∈ r) : x < i + 1 := by
  have := (aux_mem_perm i r hr).mem_iff.mp hx
  simpa using this

theorem aux_length : ∀ i, (fasterPermutationsAux i).length = (i + 1).factorial
  | 0 => rfl
  | i + 1 => by
    unfold fasterPermutationsAux permStep
    rw [List.length_flatMap]
    have hcongr : List.map
        (List.length ∘ fun j => (fasterPermutationsAux i).map fun r => r.insertIdx (i + 1 - j) (i + 1))
        (List.range (i + 2)) =
        List.map (Function.const Nat ((i + 1).factorial)) (List.range (i + 2)) := by
      refine List.map_congr_left fun j _ => ?_
      simp [aux_length i]
    rw [hcongr, List.map_const, List.sum_replicate, List.length_range, smul_eq_mul]
    rw [Nat.factorial_succ (i + 1)]

set_option maxHeartbeats 1000000 in
theorem permStep_blocks_disjoint (i : Nat) (j j' : Nat) (hj' : j' < i + 2)
    (hlt : j < j') :
    List.Disjoint ((fasterPermutationsAux i).map fun r => r.insertIdx (i + 1 - j) (i + 1))
      ((fasterPermutationsAux i).map fun r => r.insertIdx (i + 1 - j') (i + 1)) := by
  intro r hrj hrj'
  rw [List.mem_map] at hrj hrj'
  obtain ⟨r₀, hr₀, rfl⟩ := hrj
  obtain ⟨r₁, hr₁, heq⟩ := hrj'
  have hlen₀ : r₀.length = i + 1 := aux_mem_length i r₀ hr₀
  have hlen₁ : r₁.length = i + 1 := aux_mem_length i r₁ hr₁
  have hpp' : i + 1 - j' < i + 1 - j := by omega
  set p := i + 1 - j with hpdef
  set p' := i + 1 - j' with hpdef'
  have hp : p ≤ i + 1 := by omega
  have hlen₀' : p < (r₀.insertIdx p (i + 1)).length := by
    rw [List.length_insertIdx p r₀ (by omega)]; omega
  have hlen₁' : p < (r₁.insertIdx p' (i + 1)).length := by
    rw [List.length_insertIdx p' r₁ (by omega)]; omega
  have hk : p' + (p - p' - 1) < r₁.length := by omega
  have h1 : (r₀.insertIdx p (i + 1)).getD p 0 = i + 1 := by
    rw [List.getD_eq_getElem _ _ hlen₀']
    exact List.getElem_insertIdx_self r₀ (i + 1) p (by omega)
  have h2 : (r₁.insertIdx p' (i + 1)).getD (p' + (p - p' - 1) + 1) 0 =
      r₁.getD (p' + (p - p' - 1)) 0 := by
    rw [List.getD_eq_getElem _ _ (by rw [List.length_insertIdx p' r₁ (by omega)]; omega),
      List.getD_eq_getElem _ _ hk]
    exact List.getElem_insertIdx_add_succ r₁ (i + 1) p' (p - p' - 1) hk
  have hidx : p' + (p - p' - 1) + 1 = p := by omega
  have hlt' : r₁.getD (p' + (p - p' - 1)) 0 < i + 1 := by
    rw [List.getD_eq_getElem _ _ hk]
    exact aux_mem_lt i r₁ hr₁ _ (List.getElem_mem hk)
  rw [hidx] at h2
  rw [← heq] at h1
  rw [h1] at h2
  omega

theorem aux_nodup : ∀ i, (fasterPermutationsAux i).Nodup
  | 0 => by simp [fasterPermutationsAux]
  | i + 1 => by
    unfold fasterPermutationsAux permStep
    rw [List.nodup_flatMap]
    constructor
    · intro j _
      exact (aux_nodup i).map (List.insertIdx_injective _ _)
    · rw [List.pairwise_iff_getElem]
      intro a b ha hb hab
      rw [List.getElem_range a ha, List.getElem_range b hb]
      have hb' : b < i + 2 := by simpa using hb
      exact permStep_blocks_disjoint i a b hb' hab

theorem aux_complete : ∀ (i : Nat) (l : List Nat),
    l.Perm (List.range (i + 1)) → l ∈ fasterPermutationsAux i
  | 0, l, h => by
    rw [show List.range 1 = [0] from rfl, List.perm_singleton] at h
    subst h
    simp [fasterPermutationsAux]
  | i + 1, l, h => by
    have hlen : l.length = i + 2 := by simpa using h.length_eq
    have hmem : i + 1 ∈ l := h.mem_iff.mpr (by rw [List.mem_range]; omega)
    obtain ⟨p, hp, hlp⟩ := List.getElem_of_mem hmem
    have hple : p ≤ i + 1 := by omega
    have herasel : (l.eraseIdx p).length = i + 1 := by
      rw [List.length_eraseIdx, if_pos hp, hlen]
      omega
    have hins : (l.eraseIdx p).insertIdx p (i + 1) = l := by
      have := insertIdx_getElem_eraseIdx l p hp
      rwa [show l.get ⟨p, hp⟩ = i + 1 from hlp] at this
    have hrec : (l.eraseIdx p).Perm (List.range (i + 1)) := by
      have h2 : l.Perm ((i + 1) :: l.eraseIdx p) := by
        have := insertIdx_perm (i + 1) p (l.eraseIdx p) (by omega)
        rwa [hins] at this
      have h3 : ((i + 1) :: l.eraseIdx p).Perm ((i + 1) :: List.range (i + 1)) := by
        refine (h2.symm.trans h).trans ?_
        rw [List.range_succ (i + 1)]
        exact List.perm_append_singleton _ _
      exact h3.cons_inv
    have hmem₀ := aux_complete i (l.eraseIdx p) hrec
    unfold fasterPermutationsAux permStep
    rw [List.mem_flatMap]
    refine ⟨i + 1 - p, by rw [List.mem_range]; omega, ?_⟩
    rw [List.mem_map]
    refine ⟨l.eraseIdx p, hmem₀, ?_⟩
    rw [show i + 1 - (i + 1 - p) = p by omega]
    exact hins

/-! ## Counting rows with a fixed value at a fixed column -/

theorem sum_map_range_const (n : Nat) (f : Nat → Nat) (B : Nat)
    (hB : ∀ j < n, f j = B) : ((List.range n).map f).sum = n * B := by
  induction n with
  | zero => simp
  | succ m ih =>
    rw [List.range_succ, List.map_append, List.sum_append,
      ih (fun j hj => hB j (by omega))]
    simp [hB m (by omega)]
    ring

theorem sum_map_range_ite (n j₀ A B : Nat) (hj₀ : j₀ < n) (f : Nat → Nat)
    (hf : ∀ j < n, f j = if j = j₀ then A else B) :
    ((List.range n).map f).sum = A + (n - 1) * B := by
  induction n with
  | zero => omega
  | succ m ih =>
    rw [List.range_succ, List.map_append, List.sum_append]
    by_cases hm : j₀ = m
    · subst hm
      rw [sum_map_range_const j₀ f B (fun j hj => by rw [hf j (by omega), if_neg (by omega)])]
      have : f j₀ = A := by rw [hf j₀ (by omega), if_pos rfl]
      simp [this]
      omega
    · have hj₀' : j₀ < m := by omega
      rw [ih hj₀' (fun j hj => hf j (by omega))]
      have hfm : f m = B := by rw [hf m (by omega)]; exact if_neg (by omega)
      simp only [hfm, List.map_cons, List.map_nil, List.sum_cons, List.sum_nil]
      have hm2 : m - 1 + 1 = m := by omega
      calc A + (m - 1) * B + (B + 0) = A + ((m - 1 + 1) * B) := by rw [Nat.succ_mul]; ring
        _ = A + (m + 1 - 1) * B := by rw [hm2, Nat.add_sub_cancel]

theorem countP_flatMap {α β : Type} (p : β → Bool) (f : α → List β) :
    ∀ l : List α, (l.flatMap f).countP p = (l.map fun a => (f a).countP p).sum := by
  intro l
  induction l with
  | nil => rfl
  | cons a as ih => simp [List.flatMap_cons, List.countP_append, ih]

theorem aux_countP_getD : ∀ (i g b : Nat), g ≤ i → b ≤ i →
    ((fasterPermutationsAux i).countP fun r => decide (r.getD g 0 = b)) = i.factorial
  | 0, g, b, hg, hb => by
    have hg0 : g = 0 := by omega
    have hb0 : b = 0 := by omega
    subst hg0
    subst hb0
    rfl
  | i + 1, g, b, hg, hb => by
    unfold fasterPermutationsAux permStep
    rw [countP_flatMap]
    have hgle : g ≤ i + 1 := hg
    have hblock : ∀ j ∈ List.range (i + 2),
        (fun j =>
          (((fasterPermutationsAux i).map fun r => r.insertIdx (i + 1 - j) (i + 1)).countP
            fun r => decide (r.getD g 0 = b))) j =
        (fun j =>
          if j = i + 1 - g then (if b = i + 1 then (i + 1).factorial else 0)
          else (if b = i + 1 then 0 else i.factorial)) j := by
      intro j hjmem
      have hj : j < i + 2 := List.mem_range.mp hjmem
      simp only []
      rw [List.countP_map]
      generalize hq : i + 1 - j = q
      have hqle : q ≤ i + 1 := by omega
      by_cases hqg : q = g
      · rw [if_pos (by omega)]
        by_cases hb1 : b = i + 1
        · rw [if_pos hb1, ← aux_length i]
          refine List.countP_eq_length.mpr ?_
          intro r hr
          have hlen : r.length = i + 1 := aux_mem_length i r hr
          simp only [Function.comp]
          rw [hqg]
          rw [List.getD_eq_getElem _ _ (by rw [List.length_insertIdx g r (by omega)]; omega)]
          rw [List.getElem_insertIdx_self r (i + 1) g (by omega)]
          simp [hb1]
        · rw [if_neg hb1]
          refine List.countP_eq_zero.mpr ?_
          intro r hr
          have hlen : r.length = i + 1 := aux_mem_length i r hr
          simp only [Function.comp]
          rw [hqg]
          rw [List.getD_eq_getElem _ _ (by rw [List.length_insertIdx g r (by omega)]; omega)]
          rw [List.getElem_insertIdx_self r (i + 1) g (by omega)]
          simp [Ne.symm hb1]
      · rw [if_neg (by omega)]
        by_cases hb1 : b = i + 1
        · rw [if_pos hb1]
          refine List.countP_eq_zero.mpr ?_
          intro r hr
          have hlen : r.length = i + 1 := aux_mem_length i r hr
          simp only [Function.comp]
          by_cases hgq : g < q
          · rw [List.getD_eq_getElem _ _ (by rw [List.length_insertIdx q r (by omega)]; omega)]
            rw [List.getElem_insertIdx_of_lt r (i + 1) q g hgq (by omega)]
            rw [← List.getD_eq_getElem r 0 (show g < r.length by omega)]
            have hlt2 : r.getD g 0 < i + 1 := by
              rw [List.getD_eq_getElem _ _ (show g < r.length by omega)]
              exact aux_mem_lt i r hr _ (List.getElem_mem (by omega))
            simp only [decide_eq_true_eq]
            omega
          · have hqg' : q < g := by omega
            have hgidx : q + (g - q - 1) + 1 = g := by omega
            rw [← hgidx]
            rw [List.getD_eq_getElem _ _ (by rw [List.length_insertIdx q r (by omega)]; omega)]
            rw [List.getElem_insertIdx_add_succ r (i + 1) q (g - q - 1) (by omega)]
            rw [← List.getD_eq_getElem r 0 (show q + (g - q - 1) < r.length by omega)]
            have hlt2 : r.getD (q + (g - q - 1)) 0 < i + 1 := by
              rw [List.getD_eq_getElem _ _ (show q + (g - q - 1) < r.length by omega)]
              exact aux_mem_lt i r hr _ (List.getElem_mem (by omega))
            simp only [decide_eq_true_eq]
            omega
        · rw [if_neg hb1]
          have hble : b ≤ i := by omega
          by_cases hgq : g < q
          · have hgle' : g ≤ i := by omega
            rw [← aux_countP_getD i g b hgle' hble]
            refine List.countP_congr ?_
            intro r hr
            have hlen : r.length = i + 1 := aux_mem_length i r hr
            simp only [Function.comp]
            rw [List.getD_eq_getElem _ _ (by rw [List.length_insertIdx q r (by omega)]; omega)]
            rw [List.getElem_insertIdx_of_lt r (i + 1) q g hgq (by omega)]
            rw [List.getD_eq_getElem _ _ (by omega)]
          · have hqg' : q < g := by omega
            have hgle' : g - 1 ≤ i := by omega
            rw [← aux_countP_getD i (g - 1) b hgle' hble]
            refine List.countP_congr ?_
            intro r hr
            have hlen : r.length = i + 1 := aux_mem_length i r hr
            simp only [Function.comp]
            have hgidx : q + (g - q - 1) + 1 = g := by omega
            rw [← hgidx]
            rw [List.getD_eq_getElem _ _ (by rw [List.length_insertIdx q r (by omega)]; omega)]
            rw [List.getElem_insertIdx_add_succ r (i + 1) q (g - q - 1) (by omega)]
            rw [show q + (g - q - 1) + 1 - 1 = q + (g - q - 1) from by omega]
            rw [List.getD_eq_getElem _ _ (by omega)]
    rw [List.map_congr_left hblock]
    by_cases hb1 : b = i + 1
    · simp only [if_pos hb1]
      rw [sum_map_range_ite (i + 2) (i + 1 - g) ((i + 1).factorial) 0 (by omega) _
        (fun j hj => rfl)]
      omega
    · simp only [if_neg hb1]
      rw [sum_map_range_ite (i + 2) (i + 1 - g) 0 (i.factorial) (by omega) _
        (fun j hj => rfl)]
      rw [Nat.factorial_succ]
      have : i + 2 - 1 = i + 1 := by omega
      rw [this]
      omega

theorem countP_eq_one_of_nodup_mem {α : Type} [DecidableEq α] (l : List α) (a : α)
    (hn : l.Nodup) (ha : a ∈ l) : (l.countP fun x => decide (x = a)) = 1 := by
  induction l with
  | nil => simp at ha
  | cons x xs ih =>
    rw [List.countP_cons]
    rcases List.mem_cons.mp ha with heq | hmem
    · subst heq
      have hnx : a ∉ xs := (List.nodup_cons.mp hn).1
      rw [List.countP_eq_zero.mpr ?_]
      · simp
      · intro b hb
        simp only [decide_eq_true_eq]
        rintro rfl
        exact hnx hb
    · have hx : ¬ (x = a) := by
        rintro rfl
        exact (List.nodup_cons.mp hn).1 hmem
      rw [ih (List.nodup_cons.mp hn).2 hmem]
      simp [hx]

/-- Claim C2: for every N ≥ 1, a freshly constructed engine has
`num_scenarios = N!`; the generated scenario table has N! rows of N
columns, its rows are permutations of 0..N-1 and every permutation of
0..N-1 occurs exactly once among them; and every entry of the initial
probability table equals 1/N. -/
theorem fresh_engine_all_permutations (guys girls : List String)
    (h : 1 ≤ guys.length) :
    num_scenarios (init guys girls) = (guys.length).factorial ∧
    (∀ r ∈ (init guys girls).scenarios,
      r.length = guys.length ∧ r.Perm (List.range guys.length)) ∧
    (∀ l : List Nat, l.Perm (List.range guys.length) →
      (init guys girls).scenarios.count l = 1) ∧
    (∀ row ∈ (init guys girls).probabilities, ∀ x ∈ row,
      x = 1 / (guys.length : ℚ)) := by
  obtain ⟨m, hm⟩ : ∃ m, guys.length = m + 1 := ⟨guys.length - 1, by omega⟩
  have hsc : (init guys girls).scenarios = fasterPermutationsAux m := by
    show faster_permutations guys.length = _
    rw [hm]
    rfl
  refine ⟨?_, ?_, ?_, ?_⟩
  · show (init guys girls).scenarios.length = _
    rw [hsc, aux_length, hm]
  · intro r hr
    rw [hsc] at hr
    exact ⟨by rw [hm]; exact aux_mem_length m r hr, by rw [hm]; exact aux_mem_perm m r hr⟩
  · intro l hl
    rw [hsc]
    have h1 : ((fasterPermutationsAux m).countP fun r => decide (r = l)) = 1 :=
      countP_eq_one_of_nodup_mem _ l (aux_nodup m) (aux_complete m l (by rwa [hm] at hl))
    rw [← h1]
    refine List.countP_congr fun r hr => ?_
    simp
  · intro row hrow x hx
    have hrow' : row ∈ guys.map fun _ => girls.map fun _ => 1 / (guys.length : ℚ) := hrow
    obtain ⟨a, ha, hfa⟩ := List.mem_map.mp hrow'
    rw [← hfa] at hx
    obtain ⟨c, hc, hfc⟩ := List.mem_map.mp hx
    exact hfc.symm

/-- Probability recomputation over the freshly generated table reproduces
the uniform initial table (each column of the full permutation table holds
each value (N-1)! times out of N! rows). -/
theorem init_recompute (guys girls : List String) (h1 : 1 ≤ guys.length)
    (h2 : girls.length = guys.length) :
    calcProbsOf guys girls (faster_permutations guys.length) =
      .ok (initialize_probs guys girls guys.length) := by
  obtain ⟨m, hm⟩ : ∃ m, guys.length = m + 1 := ⟨guys.length - 1, by omega⟩
  have haux : faster_permutations guys.length = fasterPermutationsAux m := by rw [hm]; rfl
  have hne : (faster_permutations guys.length).length = 0 → False := by
    rw [haux, aux_length]
    exact fun hc => Nat.factorial_ne_zero _ hc
  have hcount : ∀ gi < guys.length, ∀ bi < girls.length,
      (((faster_permutations guys.length).countP
          fun r => decide (r.getD gi 0 = bi) : Nat) : ℚ) /
        (((faster_permutations guys.length).length : Nat) : ℚ) =
        1 / (guys.length : ℚ) := by
    intro gi hgi bi hbi
    rw [haux, aux_countP_getD m gi bi (by omega) (by omega), aux_length m, hm]
    rw [Nat.factorial_succ]
    push_cast
    rw [div_eq_div_iff (by positivity) (by positivity)]
    ring
  unfold calcProbsOf
  rw [if_neg hne]
  congr 1
  unfold initialize_probs
  refine List.ext_getElem (by simp) ?_
  intro gi hgi1 hgi2
  have hgil : gi < guys.length := by simpa using hgi2
  rw [List.getElem_map, List.getElem_map]
  simp only [List.getElem_range]
  refine List.ext_getElem (by simp) ?_
  intro bi hbi1 hbi2
  have hbil : bi < girls.length := by simpa using hbi2
  rw [List.getElem_map, List.getElem_map]
  simp only [List.getElem_range]
  exact hcount gi hgil bi hbil

/-! ## Replay: save/load reconstruction -/

theorem applyEvent_true_ok (st st' : AYTO) (e : Event)
    (h : applyEvent st e true = .ok st') :
    applyEvent st e false = .ok ({ st' with probabilities := st.probabilities }) ∧
    calcProbsOf st'.guys st'.girls st'.scenarios = .ok st'.probabilities ∧
    st'.guys = st.guys ∧ st'.girls = st.girls ∧
    st'.history = st.history ++ [e] := by
  cases e with
  | truthBooth guy girl isMatch =>
    simp only [applyEvent] at h ⊢
    unfold apply_truth_booth at h ⊢
    rcases Option.eq_none_or_eq_some (nameId st.guys guy) with hg | ⟨ga, hg⟩
    · rw [hg] at h
      cases h
    · rcases Option.eq_none_or_eq_some (nameId st.girls girl) with hb | ⟨gb, hb⟩
      · rw [hg, hb] at h
        dsimp only at h
        cases h
      · rw [hg, hb] at h ⊢
        dsimp only at h ⊢
        simp only [if_true, Bool.false_eq_true, if_false] at h ⊢
        unfold calculate_probabilities at h
        cases hC : calcProbsOf st.guys st.girls
            (maskSelect st.scenarios (get_truth_booth_idx st.scenarios ga gb isMatch)) with
        | error eC => simp only [hC] at h; cases h
        | ok t =>
          simp only [hC] at h
          cases h
          exact ⟨rfl, hC, rfl, rfl, rfl⟩
  | matchupCeremony matchup beams =>
    simp only [applyEvent] at h ⊢
    unfold apply_matchup_ceremony get_matchup_idx parse_matchup at h ⊢
    cases hc : checkNames st.guys st.girls matchup with
    | some e' =>
      (try rw [hc] at h)
      dsimp only at h
      cases h
    | none =>
      (try rw [hc] at h)
      dsimp only at h ⊢
      simp only [if_true, Bool.false_eq_true, if_false] at h ⊢
      unfold calculate_probabilities at h
      cases hC : calcProbsOf st.guys st.girls
          (maskSelect st.scenarios
            (matchupMask st.scenarios (matchupInts st.guys st.girls st.n matchup) beams)) with
      | error eC => simp only [hC] at h; cases h
      | ok t =>
        simp only [hC] at h
        cases h
        exact ⟨rfl, hC, rfl, rfl, rfl⟩

theorem applyEvent_false_probs_irrel (st : AYTO) (p : List (List ℚ)) (e : Event) :
    applyEvent { st with probabilities := p } e false =
      match applyEvent st e false with
      | .ok s => .ok { s with probabilities := p }
      | .error (err, s) => .error (err, { s with probabilities := p }) := by
  obtain ⟨gys, gls, nn, sc, pr, hist⟩ := st
  cases e with
  | truthBooth guy girl isMatch =>
    simp only [applyEvent]
    unfold apply_truth_booth
    dsimp only
    rcases Option.eq_none_or_eq_some (nameId gys guy) with hg | ⟨ga, hg⟩
    · rw [hg]
    · rw [hg]
      dsimp only
      rcases Option.eq_none_or_eq_some (nameId gls girl) with hb | ⟨gb, hb⟩
      · rw [hb]
      · rw [hb]
        dsimp only
        simp only [Bool.false_eq_true, if_false]
  | matchupCeremony matchup beams =>
    simp only [applyEvent]
    unfold apply_matchup_ceremony get_matchup_idx parse_matchup
    dsimp only
    cases hc : checkNames gys gls matchup with
    | some e' => rfl
    | none =>
      dsimp only
      simp only [Bool.false_eq_true, if_false]

theorem runEvents_false_probs_irrel (p : List (List ℚ)) :
    ∀ (events : List Event) (st : AYTO),
      runEvents { st with probabilities := p } events false =
        match runEvents st events false with
        | .ok s => .ok { s with probabilities := p }
        | .error (err, s) => .error (err, { s with probabilities := p }) := by
  intro events
  induction events with
  | nil => intro st; rfl
  | cons e rest ih =>
    intro st
    unfold runEvents
    rw [applyEvent_false_probs_irrel]
    cases hA : applyEvent st e false with
    | error err =>
      obtain ⟨err1, s1⟩ := err
      rfl
    | ok s1 =>
      simp only []
      exact ih s1

theorem runEvents_true_replay :
    ∀ (events : List Event) (st st' : AYTO),
      runEvents st events true = .ok st' →
      runEvents st events false = .ok ({ st' with probabilities := st.probabilities }) ∧
      (events = [] ∧ st' = st ∨
        calcProbsOf st'.guys st'.girls st'.scenarios = .ok st'.probabilities) ∧
      st'.guys = st.guys ∧ st'.girls = st.girls ∧
      st'.history = st.history ++ events := by
  intro events
  induction events with
  | nil =>
    intro st st' h
    cases h
    exact ⟨rfl, Or.inl ⟨rfl, rfl⟩, rfl, rfl, by simp⟩
  | cons e rest ih =>
    intro st st' h
    unfold runEvents at h
    cases hA : applyEvent st e true with
    | error err => rw [hA] at h; cases h
    | ok s1 =>
      rw [hA] at h
      obtain ⟨hfalse, hcalc, hguys, hgirls, hhist⟩ := applyEvent_true_ok st s1 e hA
      obtain ⟨ihfalse, ihcalc, ihguys, ihgirls, ihhist⟩ := ih s1 st' h
      refine ⟨?_, ?_, by rw [ihguys, hguys], by rw [ihgirls, hgirls], ?_⟩
      · show (match applyEvent st e false with
            | .error err => Except.error err
            | .ok s => runEvents s rest false) = _
        rw [hfalse]
        show runEvents { s1 with probabilities := st.probabilities } rest false = _
        rw [runEvents_false_probs_irrel st.probabilities rest s1, ihfalse]
      · rcases ihcalc with ⟨hrest, heq⟩ | hcal
        · subst heq
          exact Or.inr hcalc
        · exact Or.inr hcal
      · rw [ihhist, hhist]
        simp

/-- Claim C4: for every engine with equal-size sides built by a sequence
of valid observations applied through the public operations (with
recomputation at each step), reconstructing from its serialized record —
fresh engine for the same names, replay of the history with recomputation
deferred, then one recomputation — yields an engine with identical state:
same `num_scenarios`, same surviving candidate set, same probability
table, same history. -/
theorem save_load_replay (guys girls : List String) (events : List Event)
    (h1 : 1 ≤ guys.length) (h2 : girls.length = guys.length) (st : AYTO)
    (hrun : runEvents (init guys girls) events true = .ok st) :
    load (serialize st) = .ok st := by
  obtain ⟨hfalse, hcalc, hguys, hgirls, hhist⟩ :=
    runEvents_true_replay events (init guys girls) st hrun
  unfold load serialize
  show (match runEvents (init st.guys st.girls) st.history false with
        | .error err => Except.error err
        | .ok s => calculate_probabilities s) = _
  rw [show st.guys = guys from hguys, show st.girls = girls from hgirls,
    show st.history = events from by rw [hhist]; rfl]
  rw [hfalse]
  show calculate_probabilities { st with probabilities := (init guys girls).probabilities } = _
  unfold calculate_probabilities
  rcases hcalc with ⟨hev, heq⟩ | hcal
  · subst heq
    show (match calcProbsOf guys girls (faster_permutations guys.length) with
          | Except.error e =>
            Except.error (e, { init guys girls with probabilities := (init guys girls).probabilities })
          | Except.ok t =>
            Except.ok { init guys girls with probabilities := t }) = _
    rw [init_recompute guys girls h1 h2]
    rfl
  · show (match calcProbsOf st.guys st.girls st.scenarios with
          | Except.error e =>
            Except.error (e, { st with probabilities := (init guys girls).probabilities })
          | Except.ok t => Except.ok { st with probabilities := t }) = _
    rw [hcal]

/-! ## Concrete instantiations of the conditional theorems -/

theorem fresh_engine_all_permutations_witness :
    1 ≤ (["a"] : List String).length ∧
    num_scenarios (init ["a"] ["x"]) = ((["a"] : List String).length).factorial :=
  ⟨by decide, (fresh_engine_all_permutations ["a"] ["x"] (by decide)).1⟩

theorem truth_booth_equiv_matchup_witness :
    ∃ st₁ k₁ st₂ k₂,
      apply_truth_booth demoEngine "Al" "Xa" true false = .ok (st₁, k₁) ∧
      apply_matchup_ceremony demoEngine [("Al", "Xa")] (if (true : Bool) then 1 else 0) false =
        .ok (st₂, k₂) ∧
      st₁.scenarios = st₂.scenarios ∧ k₁ = k₂ :=
  truth_booth_equiv_matchup demoEngine "Al" "Xa" true 0 0 (by decide) (by decide)
    (by decide) (by decide)

theorem save_load_replay_witness :
    load (serialize demoEngine1) = .ok demoEngine1 :=
  save_load_replay ["Al", "Bo"] ["Xa", "Yb"] [.truthBooth "Al" "Xa" true]
    (by decide) (by decide) demoEngine1 rfl

theorem impossible_scenario_iff_empty_witness :
    calcProbsOf ["g"] ["x"] [] = .error .impossibleScenario ∧
    (∃ st' k, apply_truth_booth demoEngine "Al" "Xa" false false = .ok (st', k)) :=
  ⟨(impossible_scenario_iff_empty.1 ["g"] ["x"] []).1.mpr rfl,
   impossible_scenario_iff_empty.2.2.1 demoEngine "Al" "Xa" false 0 0 (by decide) (by decide)⟩

theorem apply_shrinks_appends_unless_contradiction_witness :
    (∀ st' k, apply_truth_booth demoEngine "Al" "Xa" true false = .ok (st', k) →
      st'.scenarios.Sublist demoEngine.scenarios ∧
      st'.history = demoEngine.history ++ [.truthBooth "Al" "Xa" true] ∧
      k = st'.scenarios.length) ∧
    (∀ e st'', apply_truth_booth demoEngine "Al" "Xa" true false = .error (e, st'') →
      e = .impossibleScenario ∧ false = true ∧ st''.scenarios = [] ∧
      st''.history = demoEngine.history) :=
  apply_shrinks_appends_unless_contradiction.1 demoEngine "Al" "Xa" true false 0 0
    (by decide) (by decide)

theorem unknown_name_raises_before_mutation_witness :
    ∃ nm v, apply_truth_booth demoEngine "Zed" "Xa" true true =
        .error (.unknownName nm v, demoEngine) ∧
      ((nameId demoEngine.guys nm = none ∧ v = dictKeys demoEngine.guys) ∨
       (nameId demoEngine.girls nm = none ∧ v = dictKeys demoEngine.girls)) :=
  unknown_name_raises_before_mutation.1 demoEngine "Zed" "Xa" true true (Or.inl (by decide))

theorem invalid_query_iff_both_absent_witness :
    try_partial_scenario demoEngine none none = .error (.invalidQuery, demoEngine) :=
  invalid_query_iff_both_absent.1 demoEngine none none ⟨rfl, rfl⟩

theorem try_partial_no_mutation_witness :
    try_partial_scenario demoEngine none none = .error (.invalidQuery, demoEngine) ∧
    demoEngine = demoEngine :=
  ⟨rfl, (try_partial_no_mutation demoEngine none none).2 .invalidQuery demoEngine rfl⟩

theorem duplicate_guy_last_pair_wins_witness :
    parse_matchup demoEngine.guys demoEngine.girls demoEngine.n
        [("Bo", "Yb"), ("Al", "Xa"), ("Al", "Yb")] =
      .ok (matchupInts demoEngine.guys demoEngine.girls demoEngine.n
        [("Bo", "Yb"), ("Al", "Yb")]) ∧
    parse_matchup demoEngine.guys demoEngine.girls demoEngine.n
        [("Bo", "Yb"), ("Al", "Xa"), ("Al", "Yb")] =
      parse_matchup demoEngine.guys demoEngine.girls demoEngine.n
        [("Bo", "Yb"), ("Al", "Yb")] ∧
    get_matchup_idx demoEngine [("Bo", "Yb"), ("Al", "Xa"), ("Al", "Yb")] 1 =
      get_matchup_idx demoEngine [("Bo", "Yb"), ("Al", "Yb")] 1 :=
  duplicate_guy_last_pair_wins demoEngine [("Bo", "Yb")] ("Al", "Xa") [("Al", "Yb")] 1
    (by decide) ⟨("Al", "Yb"), by decide, by decide⟩

end Ayto
